import Mathlib

/-!
# Verification of `AggressorStrategy` (Dungeons-and-Dragons, Assignment 3)

Shallow embedding of `src/Assignment 3/Lance/AggressorStrategy.cpp`.
The `Map`, `Character` and global-registry collaborators are not part of the
source tree; they are modelled from the spec's external-interface section
(`getCell/setCell/clearCell/getMapWidth/getMapLength/getHumanPosition`,
position/hit-point/symbol/strategy accessors, an ordered registry searched
linearly by position).  Everything in `AggressorStrategy.cpp` itself is
translated line by line, including its quirks:
* `moveCloserToHuman` reads `getHumanPosition()[0]` for BOTH coordinates;
* the fourth branch of `canAttackOneAdjacentCharacter` tests cell
  `(x, y-1)` (the same cell as the second branch) but attacks `(x, y+1)`;
* `attackCharacterAtPosition` keeps scanning the whole registry, so the
  LAST matching entry is attacked, and when no entry matches it would
  dereference an uninitialized pointer (modelled by `Option.none`).
-/

/-- Modelled from the spec: the strategy attached to a character
(`HumanPlayerStrategy`, `AggressorStrategy`, `FriendlyStrategy`), replaceable
at runtime via `setStrategy`. -/
inductive StrategyTag where
  | aggressor
  | friendly
  | humanPlayer
deriving DecidableEq, Repr

/-- Modelled from the spec: a character has a position `(x, y)`, hit points,
a map symbol (`typeOnMap`) and an assigned strategy. -/
structure Character where
  posX : Int
  posY : Int
  hitPoints : Int
  typeOnMap : Char
  strategy : StrategyTag
deriving DecidableEq, Repr

/-- Modelled from the spec: the map is a 2D grid of cells, exposes bounds
queries, and tracks the human player's position (a vector indexed `[0]`,
`[1]` in the C++ source). -/
structure Map where
  mapWidth : Int
  mapLength : Int
  cells : Int → Int → Char
  humanPosition : List Int

/-- Modelled from the spec: `Map::getCell(x, y)`. -/
def getCell (m : Map) (x y : Int) : Char := m.cells x y

/-- Modelled from the spec: `Map::setCell(x, y, s)`. -/
def setCell (m : Map) (x y : Int) (s : Char) : Map :=
  { m with cells := fun a b => if a = x ∧ b = y then s else m.cells a b }

/-- Modelled from the spec: `Map::clearCell(x, y)` makes the cell empty
(the empty symbol is the space character, compared by `moveCloserToHuman`). -/
def clearCell (m : Map) (x y : Int) : Map := setCell m x y ' '

/-- Modelled from the spec: `Map::getHumanPosition()` returns the indexable
pair of the human player's coordinates. -/
def getHumanPosition (m : Map) : List Int := m.humanPosition

/-- Placeholder character, used only as the `List.getD` default; every lookup
proved about below happens at an index shown to be in range. -/
def defaultCharacter : Character :=
  { posX := 0, posY := 0, hitPoints := 0, typeOnMap := ' ', strategy := .humanPlayer }

/-- `AggressorStrategy::shortestDistanceToHuman` (source lines 70-72):
`abs(charPosX-humanPosX) + abs(charPosY-humanPosY)`. -/
def shortestDistanceToHuman (charPosX charPosY humanPosX humanPosY : Int) : Int :=
  ((charPosX - humanPosX).natAbs : Int) + ((charPosY - humanPosY).natAbs : Int)

/-- The human target point as `moveCloserToHuman` actually reads it
(source lines 38-39): BOTH coordinates come from `getHumanPosition()[0]`. -/
def humanTarget (m : Map) : Int × Int :=
  ((getHumanPosition m).getD 0 0, (getHumanPosition m).getD 0 0)

/-- The distance `moveCloserToHuman` computes from `(x, y)` to its
(mis-)read human target. -/
def distToTarget (m : Map) (x y : Int) : Int :=
  shortestDistanceToHuman x y (humanTarget m).1 (humanTarget m).2

/-- `AggressorStrategy::moveUp` (source lines 77-84): clear the current
cell, decrement the x coordinate, write the character's symbol there. -/
def moveUp (m : Map) (c : Character) : Map × Character :=
  let m1 := clearCell m c.posX c.posY
  let m2 := setCell m1 (c.posX - 1) c.posY c.typeOnMap
  (m2, { c with posX := c.posX - 1 })

/-- `AggressorStrategy::moveDown` (source lines 89-96). -/
def moveDown (m : Map) (c : Character) : Map × Character :=
  let m1 := clearCell m c.posX c.posY
  let m2 := setCell m1 (c.posX + 1) c.posY c.typeOnMap
  (m2, { c with posX := c.posX + 1 })

/-- `AggressorStrategy::moveLeft` (source lines 101-108). -/
def moveLeft (m : Map) (c : Character) : Map × Character :=
  let m1 := clearCell m c.posX c.posY
  let m2 := setCell m1 c.posX (c.posY - 1) c.typeOnMap
  (m2, { c with posY := c.posY - 1 })

/-- `AggressorStrategy::moveRight` (source lines 113-120). -/
def moveRight (m : Map) (c : Character) : Map × Character :=
  let m1 := clearCell m c.posX c.posY
  let m2 := setCell m1 c.posX (c.posY + 1) c.typeOnMap
  (m2, { c with posY := c.posY + 1 })

/-- `AggressorStrategy::moveCloserToHuman` (source lines 35-61).  Note the
faithful double read of index `[0]` via `humanTarget`, and the branch order
up, left, down, right with the source's bounds tests. -/
def moveCloserToHuman (m : Map) (c : Character) : Map × Character :=
  let charPosX := c.posX
  let charPosY := c.posY
  let humanPosX := (humanTarget m).1
  let humanPosY := (humanTarget m).2
  let originalDistance := shortestDistanceToHuman charPosX charPosY humanPosX humanPosY
  if originalDistance ≠ 0 then
    if charPosX > 0 ∧ getCell m (charPosX - 1) charPosY = ' ' ∧
        shortestDistanceToHuman (charPosX - 1) charPosY humanPosX humanPosY ≤ originalDistance then
      moveUp m c
    else if charPosY > 0 ∧ getCell m charPosX (charPosY - 1) = ' ' ∧
        shortestDistanceToHuman charPosX (charPosY - 1) humanPosX humanPosY ≤ originalDistance then
      moveLeft m c
    else if charPosX < m.mapWidth - 1 ∧ getCell m (charPosX + 1) charPosY = ' ' ∧
        shortestDistanceToHuman (charPosX + 1) charPosY humanPosX humanPosY ≤ originalDistance then
      moveDown m c
    else if charPosY < m.mapLength - 1 ∧ getCell m charPosX (charPosY + 1) = ' ' ∧
        shortestDistanceToHuman charPosX (charPosY + 1) humanPosX humanPosY ≤ originalDistance then
      moveRight m c
    else (m, c)
  else (m, c)

/-- The registry scan of `attackCharacterAtPosition` (source lines 158-163):
the C++ loop runs over the whole registry and overwrites the pointer at every
match, so the result is the index of the LAST matching entry (`none` when no
entry matches, modelling the uninitialized pointer). -/
def lastMatchAux (x y : Int) : List Character → Nat → Option Nat → Option Nat
  | [], _, acc => acc
  | ch :: rest, i, acc =>
      lastMatchAux x y rest (i + 1) (if ch.posX = x ∧ ch.posY = y then some i else acc)

/-- Index of the last registry entry whose coordinates equal `(x, y)`. -/
def lastMatch (reg : List Character) (x y : Int) : Option Nat :=
  lastMatchAux x y reg 0 none

/-- `AggressorStrategy::attackCharacterAtPosition` (source lines 155-178):
find the (last) registry entry at `(x, y)`; if its symbol is `'C'` convert it
to `'O'` and give it an `AggressorStrategy`; then decrement its hit points by
one.  `none` models the uninitialized-pointer dereference of the source when
no entry matches. -/
def attackCharacterAtPosition (reg : List Character) (x y : Int) :
    Option (List Character) :=
  match lastMatch reg x y with
  | none => none
  | some i =>
      let t := reg.getD i defaultCharacter
      let t1 := if t.typeOnMap = 'C' then
          { t with typeOnMap := 'O', strategy := StrategyTag.aggressor }
        else t
      some (reg.set i { t1 with hitPoints := t1.hitPoints - 1 })

/-- `AggressorStrategy::canAttackOneAdjacentCharacter` (source lines
125-149).  Faithful to the source: the fourth branch is guarded by
`charPosY < getMapLength()-1` but re-tests the cell `(x, y-1)` — the same
cell as the second branch — and then attacks `(x, y+1)`. -/
def canAttackOneAdjacentCharacter (m : Map) (c : Character)
    (reg : List Character) : Option (List Character) :=
  let charPosX := c.posX
  let charPosY := c.posY
  if charPosX > 0 ∧
      (getCell m (charPosX - 1) charPosY = 'S' ∨
       getCell m (charPosX - 1) charPosY = 'C' ∨
       getCell m (charPosX - 1) charPosY = 'O') then
    attackCharacterAtPosition reg (charPosX - 1) charPosY
  else if charPosY > 0 ∧
      (getCell m charPosX (charPosY - 1) = 'S' ∨
       getCell m charPosX (charPosY - 1) = 'C' ∨
       getCell m charPosX (charPosY - 1) = 'O') then
    attackCharacterAtPosition reg charPosX (charPosY - 1)
  else if charPosX < m.mapWidth - 1 ∧
      (getCell m (charPosX + 1) charPosY = 'S' ∨
       getCell m (charPosX + 1) charPosY = 'C' ∨
       getCell m (charPosX + 1) charPosY = 'O') then
    attackCharacterAtPosition reg (charPosX + 1) charPosY
  else if charPosY < m.mapLength - 1 ∧
      (getCell m charPosX (charPosY - 1) = 'S' ∨
       getCell m charPosX (charPosY - 1) = 'C' ∨
       getCell m charPosX (charPosY - 1) = 'O') then
    attackCharacterAtPosition reg charPosX (charPosY + 1)
  else
    some reg

/-- `AggressorStrategy::execute` (source lines 24-30) for the character at
registry index `k`: if it is alive, move it closer to the human (updating its
registry entry, since the C++ character reference aliases the registry) and
attempt one adjacent attack.  `displayCharacter` is pure rendering and has no
state effect.  `none` propagates the uninitialized-pointer case of the
attack. -/
def execute (m : Map) (reg : List Character) (k : Nat) :
    Option (Map × List Character) :=
  match reg.get? k with
  | none => some (m, reg)
  | some c =>
      if c.hitPoints > 0 then
        let mc := moveCloserToHuman m c
        let reg1 := reg.set k mc.2
        match canAttackOneAdjacentCharacter mc.1 mc.2 reg1 with
        | none => none
        | some reg2 => some (mc.1, reg2)
      else some (m, reg)

/-! ## Spec-level predicates used to state the claims -/

/-- `(x, y)` is inside the grid bounds. -/
def InBoundsPos (m : Map) (x y : Int) : Prop :=
  0 ≤ x ∧ x < m.mapWidth ∧ 0 ≤ y ∧ y < m.mapLength

instance (m : Map) (x y : Int) : Decidable (InBoundsPos m x y) := by
  unfold InBoundsPos; infer_instance

/-- The cell holds one of the character symbols the attack scan looks for. -/
def HostileCell (m : Map) (x y : Int) : Prop :=
  getCell m x y = 'S' ∨ getCell m x y = 'C' ∨ getCell m x y = 'O'

instance (m : Map) (x y : Int) : Decidable (HostileCell m x y) := by
  unfold HostileCell; infer_instance

/-- Candidate condition of the claim for the "up" direction: the cell
`(x-1, y)` is in bounds, empty, and no farther from the (as-read) human
target than the current cell. -/
def CandUp (m : Map) (c : Character) : Prop :=
  InBoundsPos m (c.posX - 1) c.posY ∧ getCell m (c.posX - 1) c.posY = ' ' ∧
    distToTarget m (c.posX - 1) c.posY ≤ distToTarget m c.posX c.posY

/-- Candidate condition for the "left" direction (cell `(x, y-1)`). -/
def CandLeft (m : Map) (c : Character) : Prop :=
  InBoundsPos m c.posX (c.posY - 1) ∧ getCell m c.posX (c.posY - 1) = ' ' ∧
    distToTarget m c.posX (c.posY - 1) ≤ distToTarget m c.posX c.posY

/-- Candidate condition for the "down" direction (cell `(x+1, y)`). -/
def CandDown (m : Map) (c : Character) : Prop :=
  InBoundsPos m (c.posX + 1) c.posY ∧ getCell m (c.posX + 1) c.posY = ' ' ∧
    distToTarget m (c.posX + 1) c.posY ≤ distToTarget m c.posX c.posY

/-- Candidate condition for the "right" direction (cell `(x, y+1)`). -/
def CandRight (m : Map) (c : Character) : Prop :=
  InBoundsPos m c.posX (c.posY + 1) ∧ getCell m c.posX (c.posY + 1) = ' ' ∧
    distToTarget m c.posX (c.posY + 1) ≤ distToTarget m c.posX c.posY

instance (m : Map) (c : Character) : Decidable (CandUp m c) := by
  unfold CandUp; infer_instance

instance (m : Map) (c : Character) : Decidable (CandLeft m c) := by
  unfold CandLeft; infer_instance

instance (m : Map) (c : Character) : Decidable (CandDown m c) := by
  unfold CandDown; infer_instance

instance (m : Map) (c : Character) : Decidable (CandRight m c) := by
  unfold CandRight; infer_instance

/-- No two registry entries share a cell. -/
def DistinctPositions (reg : List Character) : Prop :=
  ∀ i, i < reg.length → ∀ j, j < reg.length → i ≠ j →
    ((reg.getD i defaultCharacter).posX, (reg.getD i defaultCharacter).posY) ≠
    ((reg.getD j defaultCharacter).posX, (reg.getD j defaultCharacter).posY)

/-- Every registry entry's recorded position holds its symbol on the grid. -/
def PositionsMatch (m : Map) (reg : List Character) : Prop :=
  ∀ ch ∈ reg, getCell m ch.posX ch.posY = ch.typeOnMap

/-- The state invariant of the spec: at most one character per cell, and each
character's recorded position matches the location of its symbol. -/
def StateInv (m : Map) (reg : List Character) : Prop :=
  DistinctPositions reg ∧ PositionsMatch m reg

instance (reg : List Character) : Decidable (DistinctPositions reg) := by
  unfold DistinctPositions; infer_instance

instance (m : Map) (reg : List Character) : Decidable (PositionsMatch m reg) := by
  unfold PositionsMatch; infer_instance

instance (m : Map) (reg : List Character) : Decidable (StateInv m reg) := by
  unfold StateInv; infer_instance

/-- Every occupied (character-symbol) cell is backed by a registry entry at
the same coordinates. -/
def CellsBacked (m : Map) (reg : List Character) : Prop :=
  ∀ x y, HostileCell m x y → ∃ ch ∈ reg, ch.posX = x ∧ ch.posY = y

/-! ## Concrete fixtures (used by witnesses and counterexamples) -/

/-- A 5x5 map whose only occupied cell is an `'S'` at `(1, 1)`. -/
def wMap : Map :=
  { mapWidth := 5, mapLength := 5,
    cells := fun a b => if a = 1 ∧ b = 1 then 'S' else ' ',
    humanPosition := [0, 0] }

/-- A hostile character standing at `(1, 1)`. -/
def wChar : Character :=
  { posX := 1, posY := 1, hitPoints := 5, typeOnMap := 'S', strategy := .aggressor }

/-- A second character also recorded at `(1, 1)` (for duplicate-position
scenarios). -/
def wCharB : Character :=
  { posX := 1, posY := 1, hitPoints := 9, typeOnMap := 'O', strategy := .aggressor }

/-- A friendly-marked character at `(1, 1)`. -/
def wCharC : Character :=
  { posX := 1, posY := 1, hitPoints := 5, typeOnMap := 'C', strategy := .friendly }

/-- The state of `wCharC` after one attack: converted and down one hit
point. -/
def wCharCAfter : Character :=
  { posX := 1, posY := 1, hitPoints := 4, typeOnMap := 'O', strategy := .aggressor }

/-- A defeated character (0 hit points). -/
def wDead : Character :=
  { posX := 1, posY := 1, hitPoints := 0, typeOnMap := 'S', strategy := .aggressor }

/-- A blank 10x10 map with the human player recorded at `(2, 7)`. -/
def mC2 : Map :=
  { mapWidth := 10, mapLength := 10, cells := fun _ _ => ' ',
    humanPosition := [2, 7] }

/-- A character at `(2, 6)`, directly above the real human position. -/
def cC2 : Character :=
  { posX := 2, posY := 6, hitPoints := 5, typeOnMap := 'O', strategy := .aggressor }

/-- A 3x3 map whose only occupied cell is an `'S'` at `(1, 2)`. -/
def mC3 : Map :=
  { mapWidth := 3, mapLength := 3,
    cells := fun a b => if a = 1 ∧ b = 2 then 'S' else ' ',
    humanPosition := [0, 0] }

/-- An attacker standing at `(1, 1)` of `mC3`. -/
def cC3 : Character :=
  { posX := 1, posY := 1, hitPoints := 5, typeOnMap := 'O', strategy := .aggressor }

/-- The hostile occupant of cell `(1, 2)` of `mC3`. -/
def sC3 : Character :=
  { posX := 1, posY := 2, hitPoints := 5, typeOnMap := 'S', strategy := .aggressor }

/-- A 3x3 map whose only occupied cell is a `'C'` at `(1, 1)`. -/
def mC8 : Map :=
  { mapWidth := 3, mapLength := 3,
    cells := fun a b => if a = 1 ∧ b = 1 then 'C' else ' ',
    humanPosition := [0, 0] }

/-! ## Helper lemmas -/

/-- Structural description of the registry scan: index of the last entry of
`l` whose coordinates are `(x, y)`. -/
def lastIdxOf (x y : Int) : List Character → Option Nat
  | [] => none
  | ch :: rest =>
      match lastIdxOf x y rest with
      | some j => some (j + 1)
      | none => if ch.posX = x ∧ ch.posY = y then some 0 else none

/-- The character produced by one attack on `t`: convert `'C'` to `'O'` with
an aggressor strategy, then lose one hit point. -/
def attackedUpdate (t : Character) : Character :=
  let t1 := if t.typeOnMap = 'C' then
      { t with typeOnMap := 'O', strategy := StrategyTag.aggressor }
    else t
  { t1 with hitPoints := t1.hitPoints - 1 }

lemma lastMatchAux_eq (x y : Int) (l : List Character) :
    ∀ (i : Nat) (acc : Option Nat),
      lastMatchAux x y l i acc =
        match lastIdxOf x y l with
        | some j => some (i + j)
        | none => acc := by
  induction l with
  | nil => intro i acc; rfl
  | cons ch rest ih =>
      intro i acc
      show lastMatchAux x y rest (i + 1)
          (if ch.posX = x ∧ ch.posY = y then some i else acc) = _
      rw [ih]
      show _ = (match
          (match lastIdxOf x y rest with
           | some j => some (j + 1)
           | none => if ch.posX = x ∧ ch.posY = y then some 0 else none) with
        | some j => some (i + j)
        | none => acc)
      cases hrest : lastIdxOf x y rest with
      | some j =>
          simp only []
          congr 1
          omega
      | none =>
          by_cases hm : ch.posX = x ∧ ch.posY = y <;> simp [hm]

lemma lastMatch_eq_lastIdxOf (reg : List Character) (x y : Int) :
    lastMatch reg x y = lastIdxOf x y reg := by
  unfold lastMatch
  rw [lastMatchAux_eq]
  cases h : lastIdxOf x y reg <;> simp

lemma lastIdxOf_eq_none_iff (x y : Int) (l : List Character) :
    lastIdxOf x y l = none ↔ ∀ ch ∈ l, ¬(ch.posX = x ∧ ch.posY = y) := by
  induction l with
  | nil => simp [lastIdxOf]
  | cons ch rest ih =>
      rw [lastIdxOf]
      cases hrest : lastIdxOf x y rest with
      | some j =>
          constructor
          · intro h; exact absurd h (by simp)
          · intro h
            have hnone : lastIdxOf x y rest = none :=
              ih.mpr (fun d hd => h d (List.mem_cons_of_mem ch hd))
            exact absurd (hnone.symm.trans hrest) (by simp)
      | none =>
          by_cases hm : ch.posX = x ∧ ch.posY = y
          · rw [if_pos hm]
            constructor
            · intro h; exact absurd h (by simp)
            · intro h; exact absurd hm (h ch (List.mem_cons_self ch rest))
          · rw [if_neg hm]
            constructor
            · intro _ d hd
              rcases List.mem_cons.mp hd with hEq | hMem
              · subst hEq; exact hm
              · exact (ih.mp hrest) d hMem
            · intro _; rfl

lemma lastIdxOf_spec (x y : Int) (l : List Character) (i : Nat)
    (h : lastIdxOf x y l = some i) :
    i < l.length ∧
    (l.getD i defaultCharacter).posX = x ∧ (l.getD i defaultCharacter).posY = y ∧
    ∀ j, i < j → j < l.length →
      ¬((l.getD j defaultCharacter).posX = x ∧ (l.getD j defaultCharacter).posY = y) := by
  induction l generalizing i with
  | nil => exact absurd h (by simp [lastIdxOf])
  | cons ch rest ih =>
      rw [lastIdxOf] at h
      cases hrest : lastIdxOf x y rest with
      | some j =>
          rw [hrest] at h
          simp only [Option.some.injEq] at h
          subst h
          obtain ⟨hlen, hx, hy, hgr⟩ := ih j hrest
          refine ⟨by simpa using hlen, by simpa [List.getD_cons_succ] using hx,
            by simpa [List.getD_cons_succ] using hy, ?_⟩
          intro j2 hj2 hj2len
          cases j2 with
          | zero => omega
          | succ k =>
              have : j < k := by omega
              have : k < rest.length := by simpa using hj2len
              exact hgr k (by omega) this
      | none =>
          rw [hrest] at h
          by_cases hm : ch.posX = x ∧ ch.posY = y
          · rw [if_pos hm] at h
            simp only [Option.some.injEq] at h
            subst h
            refine ⟨by simp, hm.1, hm.2, ?_⟩
            intro j2 hj2 hj2len hmat
            cases j2 with
            | zero => omega
            | succ k =>
                have hk : k < rest.length := by simpa using hj2len
                have hmem : rest.getD k defaultCharacter ∈ rest := by
                  rw [List.getD_eq_getElem rest defaultCharacter hk]
                  exact List.getElem_mem hk
                exact (lastIdxOf_eq_none_iff x y rest).mp hrest _ hmem hmat
          · rw [if_neg hm] at h
            exact absurd h (by simp)

lemma lastIdxOf_isSome_iff (x y : Int) (l : List Character) :
    (lastIdxOf x y l).isSome ↔ ∃ ch ∈ l, ch.posX = x ∧ ch.posY = y := by
  rw [Option.isSome_iff_ne_none]
  constructor
  · intro h
    by_contra hno
    push_neg at hno
    exact h ((lastIdxOf_eq_none_iff x y l).mpr (fun d hd hmat => (hno d hd hmat.1) hmat.2))
  · intro ⟨ch, hmem, hmat⟩ hnone
    exact (lastIdxOf_eq_none_iff x y l).mp hnone ch hmem hmat

lemma lastIdxOf_map_congr (x y : Int) (l l2 : List Character)
    (h : l.map (fun ch => (ch.posX, ch.posY)) = l2.map (fun ch => (ch.posX, ch.posY))) :
    lastIdxOf x y l = lastIdxOf x y l2 := by
  induction l generalizing l2 with
  | nil =>
      have : l2 = [] := by
        cases l2 with
        | nil => rfl
        | cons a b => exact absurd h (by simp)
      subst this; rfl
  | cons ch rest ih =>
      cases l2 with
      | nil => exact absurd h (by simp)
      | cons ch2 rest2 =>
          simp only [List.map_cons, List.cons.injEq, Prod.mk.injEq] at h
          obtain ⟨⟨hx, hy⟩, htail⟩ := h
          rw [lastIdxOf, lastIdxOf, ih rest2 htail, hx, hy]

lemma attackedUpdate_posX (t : Character) : (attackedUpdate t).posX = t.posX := by
  unfold attackedUpdate
  by_cases h : t.typeOnMap = 'C' <;> simp [h]

lemma attackedUpdate_posY (t : Character) : (attackedUpdate t).posY = t.posY := by
  unfold attackedUpdate
  by_cases h : t.typeOnMap = 'C' <;> simp [h]

lemma attackedUpdate_hitPoints (t : Character) :
    (attackedUpdate t).hitPoints = t.hitPoints - 1 := by
  unfold attackedUpdate
  by_cases h : t.typeOnMap = 'C' <;> simp [h]

lemma attackedUpdate_typeOnMap (t : Character) :
    (attackedUpdate t).typeOnMap = if t.typeOnMap = 'C' then 'O' else t.typeOnMap := by
  unfold attackedUpdate
  by_cases h : t.typeOnMap = 'C' <;> simp [h]

lemma attackedUpdate_strategy (t : Character) :
    (attackedUpdate t).strategy =
      if t.typeOnMap = 'C' then StrategyTag.aggressor else t.strategy := by
  unfold attackedUpdate
  by_cases h : t.typeOnMap = 'C' <;> simp [h]

lemma attackedUpdate_type_ne_friendly (t : Character) :
    (attackedUpdate t).typeOnMap ≠ 'C' := by
  rw [attackedUpdate_typeOnMap]
  by_cases h : t.typeOnMap = 'C' <;> simp [h]

/-- Unfolding of the attack at a found index. -/
lemma attack_eq_of_lastMatch (reg : List Character) (x y : Int) (i : Nat)
    (h : lastMatch reg x y = some i) :
    attackCharacterAtPosition reg x y =
      some (reg.set i (attackedUpdate (reg.getD i defaultCharacter))) := by
  unfold attackCharacterAtPosition attackedUpdate
  rw [h]

lemma attack_eq_none_iff (reg : List Character) (x y : Int) :
    attackCharacterAtPosition reg x y = none ↔ lastMatch reg x y = none := by
  unfold attackCharacterAtPosition
  cases h : lastMatch reg x y <;> simp

lemma set_getD_self (reg : List Character) (i : Nat) (u d : Character)
    (hi : i < reg.length) : (reg.set i u).getD i d = u := by
  rw [List.getD_eq_getElem (reg.set i u) d (by simpa using hi)]
  exact List.getElem_set_self (by simpa using hi)

lemma set_getD_ne (reg : List Character) (i j : Nat) (u d : Character)
    (hij : i ≠ j) : (reg.set i u).getD j d = reg.getD j d := by
  rw [List.getD_eq_getElem?_getD, List.getD_eq_getElem?_getD,
    List.getElem?_set_ne hij]

/-- The registry scan only looks at coordinates, so replacing an entry with
one at the same coordinates does not change which index is found. -/
lemma lastMatch_set_pos_eq (reg : List Character) (i : Nat) (t : Character)
    (hi : i < reg.length)
    (hx : t.posX = (reg.getD i defaultCharacter).posX)
    (hy : t.posY = (reg.getD i defaultCharacter).posY) (x y : Int) :
    lastMatch (reg.set i t) x y = lastMatch reg x y := by
  rw [lastMatch_eq_lastIdxOf, lastMatch_eq_lastIdxOf]
  apply lastIdxOf_map_congr
  rw [List.map_set]
  apply List.ext_getElem?
  intro j
  rw [List.getElem?_set]
  split
  · next hij =>
      subst hij
      have him : i < (List.map (fun ch => (ch.posX, ch.posY)) reg).length := by
        simpa using hi
      have hd : reg.getD i defaultCharacter = reg[i] :=
        List.getD_eq_getElem reg defaultCharacter hi
      rw [if_pos him, List.getElem?_map, List.getElem?_eq_getElem hi]
      rw [List.getD_eq_getElem?_getD] at hd
      simp [hx, hy, hd]
  · rfl

/-- The attack never changes any recorded position. -/
lemma attack_preserves_positions (reg reg2 : List Character) (x y : Int)
    (h : attackCharacterAtPosition reg x y = some reg2) :
    reg2.length = reg.length ∧
    ∀ j, (reg2.getD j defaultCharacter).posX = (reg.getD j defaultCharacter).posX ∧
      (reg2.getD j defaultCharacter).posY = (reg.getD j defaultCharacter).posY := by
  unfold attackCharacterAtPosition at h
  cases hlm : lastMatch reg x y with
  | none => rw [hlm] at h; exact absurd h (by simp)
  | some i =>
      rw [hlm] at h
      simp only [Option.some.injEq] at h
      have hi : i < reg.length := by
        have := lastIdxOf_spec x y reg i ((lastMatch_eq_lastIdxOf reg x y).symm.trans hlm)
        exact this.1
      constructor
      · rw [← h]; simp
      · intro j
        by_cases hij : i = j
        · subst hij
          rw [← h]
          have := set_getD_self reg i
            (attackedUpdate (reg.getD i defaultCharacter)) defaultCharacter hi
          unfold attackedUpdate at this
          rw [this]
          have h1 := attackedUpdate_posX (reg.getD i defaultCharacter)
          have h2 := attackedUpdate_posY (reg.getD i defaultCharacter)
          unfold attackedUpdate at h1 h2
          exact ⟨h1, h2⟩
        · rw [← h, set_getD_ne reg i j _ _ hij]
          exact ⟨rfl, rfl⟩

lemma lastMatch_spec (reg : List Character) (x y : Int) (i : Nat)
    (h : lastMatch reg x y = some i) :
    i < reg.length ∧
    (reg.getD i defaultCharacter).posX = x ∧ (reg.getD i defaultCharacter).posY = y ∧
    ∀ j, i < j → j < reg.length →
      ¬((reg.getD j defaultCharacter).posX = x ∧ (reg.getD j defaultCharacter).posY = y) :=
  lastIdxOf_spec x y reg i ((lastMatch_eq_lastIdxOf reg x y).symm.trans h)

/-! ## Claim theorems -/

/-- C4: every successful attack (a call of `attackCharacterAtPosition` whose
coordinates match a registry entry) decrements the attacked character's hit
points by exactly 1 — whatever its symbol, strategy or current hit-point
value — and leaves every other registry entry unchanged. -/
theorem attack_decrements_exactly_one (reg : List Character) (x y : Int) (i : Nat)
    (h : lastMatch reg x y = some i) :
    ∃ reg2, attackCharacterAtPosition reg x y = some reg2 ∧
      (reg2.getD i defaultCharacter).hitPoints =
        (reg.getD i defaultCharacter).hitPoints - 1 ∧
      ∀ j, j ≠ i → reg2.getD j defaultCharacter = reg.getD j defaultCharacter := by
  have hi : i < reg.length := (lastMatch_spec reg x y i h).1
  refine ⟨_, attack_eq_of_lastMatch reg x y i h, ?_, ?_⟩
  · rw [set_getD_self _ _ _ _ hi, attackedUpdate_hitPoints]
  · intro j hj
    exact set_getD_ne reg i j _ _ (Ne.symm hj)

/-- Witness for C4: attacking the character at `(1, 1)` drops its hit points
from 5 to 4. -/
theorem attack_decrements_exactly_one_witness :
    ∃ reg2, attackCharacterAtPosition [wChar] 1 1 = some reg2 ∧
      (reg2.getD 0 defaultCharacter).hitPoints =
        ([wChar].getD 0 defaultCharacter).hitPoints - 1 ∧
      ∀ j, j ≠ 0 → reg2.getD j defaultCharacter = [wChar].getD j defaultCharacter :=
  attack_decrements_exactly_one [wChar] 1 1 0 (by decide)

/-- C5: attacking a character whose symbol is the friendly mark sets its
symbol to the hostile mark and its strategy to an aggressor strategy; a
second attack in sequence finds the symbol no longer friendly, so it leaves
symbol and strategy exactly as after the first attack (the conversion happens
once and is never reversed). -/
theorem attack_friendly_conversion_once (reg : List Character) (x y : Int) (i : Nat)
    (h : lastMatch reg x y = some i) :
    ∃ reg1 reg2,
      attackCharacterAtPosition reg x y = some reg1 ∧
      attackCharacterAtPosition reg1 x y = some reg2 ∧
      ((reg.getD i defaultCharacter).typeOnMap = 'C' →
        (reg1.getD i defaultCharacter).typeOnMap = 'O' ∧
        (reg1.getD i defaultCharacter).strategy = StrategyTag.aggressor) ∧
      (reg2.getD i defaultCharacter).typeOnMap =
        (reg1.getD i defaultCharacter).typeOnMap ∧
      (reg2.getD i defaultCharacter).strategy =
        (reg1.getD i defaultCharacter).strategy := by
  have hi : i < reg.length := (lastMatch_spec reg x y i h).1
  have h1 := attack_eq_of_lastMatch reg x y i h
  have hu : (reg.set i (attackedUpdate (reg.getD i defaultCharacter))).getD i
      defaultCharacter = attackedUpdate (reg.getD i defaultCharacter) :=
    set_getD_self _ _ _ _ hi
  have hlm1 : lastMatch (reg.set i (attackedUpdate (reg.getD i defaultCharacter))) x y
      = some i := by
    rw [lastMatch_set_pos_eq reg i _ hi (attackedUpdate_posX _) (attackedUpdate_posY _)]
    exact h
  have h2 := attack_eq_of_lastMatch _ x y i hlm1
  have hi1 : i < (reg.set i (attackedUpdate (reg.getD i defaultCharacter))).length := by
    simpa using hi
  refine ⟨_, _, h1, h2, ?_, ?_, ?_⟩
  · intro hC
    rw [hu, attackedUpdate_typeOnMap, attackedUpdate_strategy, if_pos hC, if_pos hC]
    exact ⟨rfl, rfl⟩
  · rw [set_getD_self _ _ _ _ hi1, hu, attackedUpdate_typeOnMap]
    rw [if_neg (attackedUpdate_type_ne_friendly _)]
  · rw [set_getD_self _ _ _ _ hi1, hu, attackedUpdate_strategy]
    rw [if_neg (attackedUpdate_type_ne_friendly _)]

/-- Witness for C5: a friendly character at `(1, 1)` becomes a hostile
aggressor after one attack, and a second attack changes nothing further in
symbol or strategy. -/
theorem attack_friendly_conversion_once_witness :
    ∃ reg1 reg2,
      attackCharacterAtPosition [wCharC] 1 1 = some reg1 ∧
      attackCharacterAtPosition reg1 1 1 = some reg2 ∧
      (([wCharC].getD 0 defaultCharacter).typeOnMap = 'C' →
        (reg1.getD 0 defaultCharacter).typeOnMap = 'O' ∧
        (reg1.getD 0 defaultCharacter).strategy = StrategyTag.aggressor) ∧
      (reg2.getD 0 defaultCharacter).typeOnMap =
        (reg1.getD 0 defaultCharacter).typeOnMap ∧
      (reg2.getD 0 defaultCharacter).strategy =
        (reg1.getD 0 defaultCharacter).strategy :=
  attack_friendly_conversion_once [wCharC] 1 1 0 (by decide)

/-- C6: for a character whose hit points are at most 0, `execute` returns the
map, the character and the registry entirely unchanged — no move, no attack. -/
theorem execute_dead_character_noop (m : Map) (reg : List Character) (k : Nat)
    (c : Character) (hget : reg.get? k = some c) (hdead : c.hitPoints ≤ 0) :
    execute m reg k = some (m, reg) := by
  unfold execute
  rw [List.get?_eq_getElem?] at hget
  simp only [List.get?_eq_getElem?, hget]
  rw [if_neg (by omega)]

/-- Witness for C6: a 0-hit-point character produces a completely unchanged
state. -/
theorem execute_dead_character_noop_witness :
    execute wMap [wDead] 0 = some (wMap, [wDead]) :=
  execute_dead_character_noop wMap [wDead] 0 wDead (by decide) (by decide)

/-- C9: `attackCharacterAtPosition` has no error-reporting path: it reaches
the invalid-dereference branch (modelled by `none`) exactly when no registry
entry sits at the attacked coordinates, and under the precondition that every
occupied map cell is backed by a registry entry at the same coordinates, an
attack on an occupied cell never reaches that branch. -/
theorem attack_invalid_branch_unreachable (m : Map) (reg : List Character)
    (x y : Int) (hb : CellsBacked m reg) (hocc : HostileCell m x y) :
    (attackCharacterAtPosition reg x y).isSome = true ∧
    ∀ x2 y2, (attackCharacterAtPosition reg x2 y2 = none ↔
      ¬∃ ch ∈ reg, ch.posX = x2 ∧ ch.posY = y2) := by
  have hgen : ∀ x2 y2, (attackCharacterAtPosition reg x2 y2 = none ↔
      ¬∃ ch ∈ reg, ch.posX = x2 ∧ ch.posY = y2) := by
    intro x2 y2
    rw [attack_eq_none_iff, lastMatch_eq_lastIdxOf, lastIdxOf_eq_none_iff]
    constructor
    · intro h ⟨ch, hmem, hmat⟩
      exact h ch hmem hmat
    · intro h ch hmem hmat
      exact h ⟨ch, hmem, hmat⟩
  refine ⟨?_, hgen⟩
  obtain ⟨ch, hmem, hx2, hy2⟩ := hb x y hocc
  rw [Option.isSome_iff_ne_none]
  intro hnone
  exact (hgen x y).mp hnone ⟨ch, hmem, hx2, hy2⟩

/-- Witness for C9: on `wMap` (an `'S'` at `(1, 1)` backed by `wChar`), the
attack at `(1, 1)` succeeds. -/
theorem attack_invalid_branch_unreachable_witness :
    (attackCharacterAtPosition [wChar] 1 1).isSome = true ∧
    ∀ x2 y2, (attackCharacterAtPosition [wChar] x2 y2 = none ↔
      ¬∃ ch ∈ [wChar], ch.posX = x2 ∧ ch.posY = y2) := by
  refine attack_invalid_branch_unreachable wMap [wChar] 1 1 ?_ (by decide)
  intro x y hxy
  by_cases hx : x = 1 ∧ y = 1
  · obtain ⟨h1, h2⟩ := hx
    subst h1
    subst h2
    exact ⟨wChar, by simp, rfl, rfl⟩
  · exfalso
    simp only [HostileCell, getCell, wMap] at hxy
    rw [if_neg hx] at hxy
    simp at hxy

/-- C10: when several registry entries share the attacked coordinates, the
scan keeps running to the end, so the LAST matching entry (the greatest
matching index) is attacked, and every other entry — in particular every
earlier match — is left unchanged. -/
theorem attack_targets_last_match (reg : List Character) (x y : Int) (i : Nat)
    (h : lastMatch reg x y = some i) :
    i < reg.length ∧
    (reg.getD i defaultCharacter).posX = x ∧
    (reg.getD i defaultCharacter).posY = y ∧
    (∀ j, i < j → j < reg.length →
      ¬((reg.getD j defaultCharacter).posX = x ∧
        (reg.getD j defaultCharacter).posY = y)) ∧
    attackCharacterAtPosition reg x y =
      some (reg.set i (attackedUpdate (reg.getD i defaultCharacter))) ∧
    ∀ j, j ≠ i →
      (reg.set i (attackedUpdate (reg.getD i defaultCharacter))).getD j
        defaultCharacter = reg.getD j defaultCharacter := by
  obtain ⟨hi, hx2, hy2, hgr⟩ := lastMatch_spec reg x y i h
  exact ⟨hi, hx2, hy2, hgr, attack_eq_of_lastMatch reg x y i h,
    fun j hj => set_getD_ne reg i j _ _ (Ne.symm hj)⟩

/-- Witness for C10: with two entries recorded at `(1, 1)`, the attack hits
index 1 (the later one) and leaves index 0 untouched. -/
theorem attack_targets_last_match_witness :
    1 < [wChar, wCharB].length ∧
    ([wChar, wCharB].getD 1 defaultCharacter).posX = 1 ∧
    ([wChar, wCharB].getD 1 defaultCharacter).posY = 1 ∧
    (∀ j, 1 < j → j < [wChar, wCharB].length →
      ¬(([wChar, wCharB].getD j defaultCharacter).posX = 1 ∧
        ([wChar, wCharB].getD j defaultCharacter).posY = 1)) ∧
    attackCharacterAtPosition [wChar, wCharB] 1 1 =
      some ([wChar, wCharB].set 1
        (attackedUpdate ([wChar, wCharB].getD 1 defaultCharacter))) ∧
    ∀ j, j ≠ 1 →
      ([wChar, wCharB].set 1
        (attackedUpdate ([wChar, wCharB].getD 1 defaultCharacter))).getD j
        defaultCharacter = [wChar, wCharB].getD j defaultCharacter :=
  attack_targets_last_match [wChar, wCharB] 1 1 1 (by decide)

lemma candUp_iff_code (m : Map) (c : Character) (hin : InBoundsPos m c.posX c.posY) :
    CandUp m c ↔ (c.posX > 0 ∧ getCell m (c.posX - 1) c.posY = ' ' ∧
      shortestDistanceToHuman (c.posX - 1) c.posY (humanTarget m).1 (humanTarget m).2 ≤
        shortestDistanceToHuman c.posX c.posY (humanTarget m).1 (humanTarget m).2) := by
  obtain ⟨hx0, hxw, hy0, hyl⟩ := hin
  unfold CandUp InBoundsPos distToTarget
  constructor
  · rintro ⟨⟨h1, h2, h3, h4⟩, he, hd⟩
    exact ⟨by omega, he, hd⟩
  · rintro ⟨h1, he, hd⟩
    exact ⟨⟨by omega, by omega, hy0, hyl⟩, he, hd⟩

lemma candLeft_iff_code (m : Map) (c : Character) (hin : InBoundsPos m c.posX c.posY) :
    CandLeft m c ↔ (c.posY > 0 ∧ getCell m c.posX (c.posY - 1) = ' ' ∧
      shortestDistanceToHuman c.posX (c.posY - 1) (humanTarget m).1 (humanTarget m).2 ≤
        shortestDistanceToHuman c.posX c.posY (humanTarget m).1 (humanTarget m).2) := by
  obtain ⟨hx0, hxw, hy0, hyl⟩ := hin
  unfold CandLeft InBoundsPos distToTarget
  constructor
  · rintro ⟨⟨h1, h2, h3, h4⟩, he, hd⟩
    exact ⟨by omega, he, hd⟩
  · rintro ⟨h1, he, hd⟩
    exact ⟨⟨hx0, hxw, by omega, by omega⟩, he, hd⟩

lemma candDown_iff_code (m : Map) (c : Character) (hin : InBoundsPos m c.posX c.posY) :
    CandDown m c ↔ (c.posX < m.mapWidth - 1 ∧ getCell m (c.posX + 1) c.posY = ' ' ∧
      shortestDistanceToHuman (c.posX + 1) c.posY (humanTarget m).1 (humanTarget m).2 ≤
        shortestDistanceToHuman c.posX c.posY (humanTarget m).1 (humanTarget m).2) := by
  obtain ⟨hx0, hxw, hy0, hyl⟩ := hin
  unfold CandDown InBoundsPos distToTarget
  constructor
  · rintro ⟨⟨h1, h2, h3, h4⟩, he, hd⟩
    exact ⟨by omega, he, hd⟩
  · rintro ⟨h1, he, hd⟩
    exact ⟨⟨by omega, by omega, hy0, hyl⟩, he, hd⟩

lemma candRight_iff_code (m : Map) (c : Character) (hin : InBoundsPos m c.posX c.posY) :
    CandRight m c ↔ (c.posY < m.mapLength - 1 ∧ getCell m c.posX (c.posY + 1) = ' ' ∧
      shortestDistanceToHuman c.posX (c.posY + 1) (humanTarget m).1 (humanTarget m).2 ≤
        shortestDistanceToHuman c.posX c.posY (humanTarget m).1 (humanTarget m).2) := by
  obtain ⟨hx0, hxw, hy0, hyl⟩ := hin
  unfold CandRight InBoundsPos distToTarget
  constructor
  · rintro ⟨⟨h1, h2, h3, h4⟩, he, hd⟩
    exact ⟨by omega, he, hd⟩
  · rintro ⟨h1, he, hd⟩
    exact ⟨⟨hx0, hxw, by omega, by omega⟩, he, hd⟩

lemma candUp_orig_ne (m : Map) (c : Character) (hc : CandUp m c) :
    shortestDistanceToHuman c.posX c.posY (humanTarget m).1 (humanTarget m).2 ≠ 0 := by
  obtain ⟨hb, he, hd⟩ := hc
  unfold distToTarget at hd
  unfold shortestDistanceToHuman at hd ⊢
  omega

lemma candLeft_orig_ne (m : Map) (c : Character) (hc : CandLeft m c) :
    shortestDistanceToHuman c.posX c.posY (humanTarget m).1 (humanTarget m).2 ≠ 0 := by
  obtain ⟨hb, he, hd⟩ := hc
  unfold distToTarget at hd
  unfold shortestDistanceToHuman at hd ⊢
  omega

lemma candDown_orig_ne (m : Map) (c : Character) (hc : CandDown m c) :
    shortestDistanceToHuman c.posX c.posY (humanTarget m).1 (humanTarget m).2 ≠ 0 := by
  obtain ⟨hb, he, hd⟩ := hc
  unfold distToTarget at hd
  unfold shortestDistanceToHuman at hd ⊢
  omega

lemma candRight_orig_ne (m : Map) (c : Character) (hc : CandRight m c) :
    shortestDistanceToHuman c.posX c.posY (humanTarget m).1 (humanTarget m).2 ≠ 0 := by
  obtain ⟨hb, he, hd⟩ := hc
  unfold distToTarget at hd
  unfold shortestDistanceToHuman at hd ⊢
  omega

/-- Branch analysis of `moveCloserToHuman` at an in-bounds starting cell,
phrased with the claim-level candidate conditions. -/
lemma moveCloserToHuman_cases (m : Map) (c : Character)
    (hin : InBoundsPos m c.posX c.posY) :
    (CandUp m c ∧ moveCloserToHuman m c = moveUp m c) ∨
    (¬CandUp m c ∧ CandLeft m c ∧ moveCloserToHuman m c = moveLeft m c) ∨
    (¬CandUp m c ∧ ¬CandLeft m c ∧ CandDown m c ∧
      moveCloserToHuman m c = moveDown m c) ∨
    (¬CandUp m c ∧ ¬CandLeft m c ∧ ¬CandDown m c ∧ CandRight m c ∧
      moveCloserToHuman m c = moveRight m c) ∨
    (¬CandUp m c ∧ ¬CandLeft m c ∧ ¬CandDown m c ∧ ¬CandRight m c ∧
      moveCloserToHuman m c = (m, c)) := by
  have hu := candUp_iff_code m c hin
  have hl := candLeft_iff_code m c hin
  have hd := candDown_iff_code m c hin
  have hr := candRight_iff_code m c hin
  simp only [moveCloserToHuman]
  split_ifs with h0 h1 h2 h3 h4
  · exact Or.inl ⟨hu.mpr h1, rfl⟩
  · exact Or.inr (Or.inl ⟨fun hc => h1 (hu.mp hc), hl.mpr h2, rfl⟩)
  · exact Or.inr (Or.inr (Or.inl
      ⟨fun hc => h1 (hu.mp hc), fun hc => h2 (hl.mp hc), hd.mpr h3, rfl⟩))
  · refine Or.inr (Or.inr (Or.inr (Or.inl
      ⟨fun hc => h1 (hu.mp hc), fun hc => h2 (hl.mp hc),
       fun hc => h3 (hd.mp hc), hr.mpr h4, rfl⟩)))
  · exact Or.inr (Or.inr (Or.inr (Or.inr
      ⟨fun hc => h1 (hu.mp hc), fun hc => h2 (hl.mp hc),
       fun hc => h3 (hd.mp hc), fun hc => h4 (hr.mp hc), rfl⟩)))
  · have h0eq := not_not.mp (fun hne => h0 hne)
    exact Or.inr (Or.inr (Or.inr (Or.inr
      ⟨fun hc => candUp_orig_ne m c hc h0eq,
       fun hc => candLeft_orig_ne m c hc h0eq,
       fun hc => candDown_orig_ne m c hc h0eq,
       fun hc => candRight_orig_ne m c hc h0eq, rfl⟩)))

/-- C1: for an in-bounds character, `moveCloserToHuman` (hence one `execute`
call) tries the four directions in the fixed order up, left, down, right and
moves into exactly the first candidate cell that is in bounds, empty, and no
farther (by the computed Manhattan distance) from the human target than the
current cell; with no satisfying candidate nothing changes; in all cases the
displacement is at most one cell. -/
theorem moveCloserToHuman_first_candidate (m : Map) (c : Character)
    (hin : InBoundsPos m c.posX c.posY) :
    (CandUp m c →
      (moveCloserToHuman m c).2.posX = c.posX - 1 ∧
      (moveCloserToHuman m c).2.posY = c.posY) ∧
    (¬CandUp m c → CandLeft m c →
      (moveCloserToHuman m c).2.posX = c.posX ∧
      (moveCloserToHuman m c).2.posY = c.posY - 1) ∧
    (¬CandUp m c → ¬CandLeft m c → CandDown m c →
      (moveCloserToHuman m c).2.posX = c.posX + 1 ∧
      (moveCloserToHuman m c).2.posY = c.posY) ∧
    (¬CandUp m c → ¬CandLeft m c → ¬CandDown m c → CandRight m c →
      (moveCloserToHuman m c).2.posX = c.posX ∧
      (moveCloserToHuman m c).2.posY = c.posY + 1) ∧
    (¬CandUp m c → ¬CandLeft m c → ¬CandDown m c → ¬CandRight m c →
      moveCloserToHuman m c = (m, c)) ∧
    ((moveCloserToHuman m c).2.posX - c.posX).natAbs +
      ((moveCloserToHuman m c).2.posY - c.posY).natAbs ≤ 1 := by
  rcases moveCloserToHuman_cases m c hin with
    ⟨hc, he⟩ | ⟨hn1, hc, he⟩ | ⟨hn1, hn2, hc, he⟩ | ⟨hn1, hn2, hn3, hc, he⟩ |
    ⟨hn1, hn2, hn3, hn4, he⟩ <;> rw [he]
  · refine ⟨fun _ => ⟨rfl, rfl⟩, fun hn _ => absurd hc hn, fun hn _ _ => absurd hc hn,
      fun hn _ _ _ => absurd hc hn, fun hn _ _ _ => absurd hc hn, ?_⟩
    show ((c.posX - 1) - c.posX).natAbs + (c.posY - c.posY).natAbs ≤ 1
    omega
  · refine ⟨fun h => absurd h hn1, fun _ _ => ⟨rfl, rfl⟩, fun _ hn _ => absurd hc hn,
      fun _ hn _ _ => absurd hc hn, fun _ hn _ _ => absurd hc hn, ?_⟩
    show (c.posX - c.posX).natAbs + ((c.posY - 1) - c.posY).natAbs ≤ 1
    omega
  · refine ⟨fun h => absurd h hn1, fun _ h => absurd h hn2, fun _ _ _ => ⟨rfl, rfl⟩,
      fun _ _ hn _ => absurd hc hn, fun _ _ hn _ => absurd hc hn, ?_⟩
    show ((c.posX + 1) - c.posX).natAbs + (c.posY - c.posY).natAbs ≤ 1
    omega
  · refine ⟨fun h => absurd h hn1, fun _ h => absurd h hn2, fun _ _ h => absurd h hn3,
      fun _ _ _ _ => ⟨rfl, rfl⟩, fun _ _ _ hn => absurd hc hn, ?_⟩
    show (c.posX - c.posX).natAbs + ((c.posY + 1) - c.posY).natAbs ≤ 1
    omega
  · refine ⟨fun h => absurd h hn1, fun _ h => absurd h hn2, fun _ _ h => absurd h hn3,
      fun _ _ _ h => absurd h hn4, fun _ _ _ _ => rfl, ?_⟩
    show (c.posX - c.posX).natAbs + (c.posY - c.posY).natAbs ≤ 1
    omega

/-- Witness for C1: on a blank map with human recorded at `(2, 7)` the
character at `(2, 6)` has no up candidate, a left candidate, and indeed
steps left. -/
theorem moveCloserToHuman_first_candidate_witness :
    InBoundsPos mC2 cC2.posX cC2.posY ∧ ¬CandUp mC2 cC2 ∧ CandLeft mC2 cC2 ∧
    (moveCloserToHuman mC2 cC2).2.posX = cC2.posX ∧
    (moveCloserToHuman mC2 cC2).2.posY = cC2.posY - 1 :=
  ⟨by decide, by decide, by decide,
    (moveCloserToHuman_first_candidate mC2 cC2 (by decide)).2.1 (by decide) (by decide)⟩

/-- C2: both coordinates of the human target used by the movement heuristic
are read from index 0 of the human position, so the heuristic measures the
distance to `(hx, hx)` rather than `(hx, hy)`; with the human at `(2, 7)` the
position is read as `(2, 2)`, and a character at `(2, 6)` — adjacent to the
real human — walks away from it, to `(2, 5)`. -/
theorem humanTarget_double_axis_read :
    (∀ m hx hy, m.humanPosition = [hx, hy] → humanTarget m = (hx, hx)) ∧
    (∀ m hx hy, m.humanPosition = [hx, hy] → hx ≠ hy → humanTarget m ≠ (hx, hy)) ∧
    (∀ m (c : Character) hx hy, m.humanPosition = [hx, hy] →
      distToTarget m c.posX c.posY =
        shortestDistanceToHuman c.posX c.posY hx hx) ∧
    humanTarget mC2 = (2, 2) ∧
    (moveCloserToHuman mC2 cC2).2.posX = 2 ∧
    (moveCloserToHuman mC2 cC2).2.posY = 5 := by
  refine ⟨?_, ?_, ?_, by decide, by decide, by decide⟩
  · intro m hx hy h
    unfold humanTarget getHumanPosition
    rw [h]
    rfl
  · intro m hx hy h hne
    unfold humanTarget getHumanPosition
    rw [h]
    intro hcon
    exact hne (by simpa using congrArg Prod.snd hcon)
  · intro m c hx hy h
    unfold distToTarget humanTarget getHumanPosition
    rw [h]
    rfl

/-- Witness for C2: reading the map with human position `[2, 7]` yields the
target `(2, 2)`, not `(2, 7)`. -/
theorem humanTarget_double_axis_read_witness :
    humanTarget mC2 = (2, 2) ∧ humanTarget mC2 ≠ (2, 7) :=
  ⟨humanTarget_double_axis_read.2.2.2.1,
    humanTarget_double_axis_read.2.1 mC2 2 7 rfl (by decide)⟩

/-- C3 (failing input): on `mC3` the only adjacent character cell of the
attacker at `(1, 1)` is the `'S'` at `(1, 2)`; the claim (and the function's
own doc comment) says the scan finds it and attacks, but the fourth branch of
the source re-tests cell `(1, 0)` instead of `(1, 2)`, so no attack occurs and
the registry is returned unchanged. -/
theorem canAttack_misses_down_adjacent :
    getCell mC3 1 2 = 'S' ∧
    getCell mC3 0 1 = ' ' ∧ getCell mC3 1 0 = ' ' ∧ getCell mC3 2 1 = ' ' ∧
    InBoundsPos mC3 1 2 ∧
    canAttackOneAdjacentCharacter mC3 cC3 [cC3, sC3] = some [cC3, sC3] := by
  decide

lemma moveCloser_safe (m : Map) (c : Character)
    (hin : InBoundsPos m c.posX c.posY) :
    InBoundsPos m (moveCloserToHuman m c).2.posX (moveCloserToHuman m c).2.posY ∧
    (((moveCloserToHuman m c).2.posX, (moveCloserToHuman m c).2.posY) ≠
        (c.posX, c.posY) →
      getCell m (moveCloserToHuman m c).2.posX (moveCloserToHuman m c).2.posY = ' ') := by
  rcases moveCloserToHuman_cases m c hin with
    ⟨hc, he⟩ | ⟨_, hc, he⟩ | ⟨_, _, hc, he⟩ | ⟨_, _, _, hc, he⟩ |
    ⟨_, _, _, _, he⟩ <;> rw [he]
  · exact ⟨hc.1, fun _ => hc.2.1⟩
  · exact ⟨hc.1, fun _ => hc.2.1⟩
  · exact ⟨hc.1, fun _ => hc.2.1⟩
  · exact ⟨hc.1, fun _ => hc.2.1⟩
  · exact ⟨hin, fun hne => absurd rfl hne⟩

lemma moveCloser_dims (m : Map) (c : Character) :
    (moveCloserToHuman m c).1.mapWidth = m.mapWidth ∧
    (moveCloserToHuman m c).1.mapLength = m.mapLength := by
  simp only [moveCloserToHuman]
  split_ifs <;> exact ⟨rfl, rfl⟩

lemma canAttack_preserves_positions (m : Map) (c : Character)
    (reg reg2 : List Character)
    (h : canAttackOneAdjacentCharacter m c reg = some reg2) :
    ∀ j, (reg2.getD j defaultCharacter).posX = (reg.getD j defaultCharacter).posX ∧
      (reg2.getD j defaultCharacter).posY = (reg.getD j defaultCharacter).posY := by
  simp only [canAttackOneAdjacentCharacter] at h
  split_ifs at h
  · exact fun j => (attack_preserves_positions reg reg2 _ _ h).2 j
  · exact fun j => (attack_preserves_positions reg reg2 _ _ h).2 j
  · exact fun j => (attack_preserves_positions reg reg2 _ _ h).2 j
  · exact fun j => (attack_preserves_positions reg reg2 _ _ h).2 j
  · simp only [Option.some.injEq] at h
    subst h
    exact fun j => ⟨rfl, rfl⟩

lemma get?_eq_some_getD (reg : List Character) (k : Nat) (hk : k < reg.length) :
    reg.get? k = some (reg.getD k defaultCharacter) := by
  rw [List.get?_eq_getElem?, List.getElem?_eq_getElem hk,
    List.getD_eq_getElem reg defaultCharacter hk]

/-- C7: the movement never places a character out of bounds and never onto a
non-empty cell: from an in-bounds start, the cell selected by
`moveCloserToHuman` is in bounds and — whenever the position changes — was
empty beforehand; consequently an `execute` call that returns keeps the
character in bounds (the grid dimensions are unchanged), and any move it made
was onto a previously empty cell. -/
theorem execute_in_bounds_and_empty_dest :
    (∀ (m : Map) (c : Character), InBoundsPos m c.posX c.posY →
      InBoundsPos m (moveCloserToHuman m c).2.posX (moveCloserToHuman m c).2.posY ∧
      (((moveCloserToHuman m c).2.posX, (moveCloserToHuman m c).2.posY) ≠
          (c.posX, c.posY) →
        getCell m (moveCloserToHuman m c).2.posX (moveCloserToHuman m c).2.posY
          = ' ')) ∧
    (∀ (m : Map) (reg : List Character) (k : Nat) (m2 : Map)
        (reg2 : List Character), k < reg.length →
      InBoundsPos m (reg.getD k defaultCharacter).posX
        (reg.getD k defaultCharacter).posY →
      execute m reg k = some (m2, reg2) →
      m2.mapWidth = m.mapWidth ∧ m2.mapLength = m.mapLength ∧
      InBoundsPos m (reg2.getD k defaultCharacter).posX
        (reg2.getD k defaultCharacter).posY ∧
      (((reg2.getD k defaultCharacter).posX, (reg2.getD k defaultCharacter).posY) ≠
          ((reg.getD k defaultCharacter).posX, (reg.getD k defaultCharacter).posY) →
        getCell m (reg2.getD k defaultCharacter).posX
          (reg2.getD k defaultCharacter).posY = ' ')) := by
  refine ⟨fun m c hin => moveCloser_safe m c hin, ?_⟩
  intro m reg k m2 reg2 hk hin hexec
  simp only [execute, get?_eq_some_getD reg k hk] at hexec
  by_cases hp : (reg.getD k defaultCharacter).hitPoints > 0
  · rw [if_pos hp] at hexec
    cases hca : canAttackOneAdjacentCharacter
        (moveCloserToHuman m (reg.getD k defaultCharacter)).1
        (moveCloserToHuman m (reg.getD k defaultCharacter)).2
        (reg.set k (moveCloserToHuman m (reg.getD k defaultCharacter)).2) with
    | none => rw [hca] at hexec; exact absurd hexec (by simp)
    | some reg3 =>
        rw [hca] at hexec
        simp only [Option.some.injEq, Prod.mk.injEq] at hexec
        obtain ⟨hm2, hreg2⟩ := hexec
        subst hm2
        subst hreg2
        have hkset : k < (reg.set k
            (moveCloserToHuman m (reg.getD k defaultCharacter)).2).length := by
          simpa using hk
        have hset := set_getD_self reg k
          (moveCloserToHuman m (reg.getD k defaultCharacter)).2 defaultCharacter hk
        have hpos := canAttack_preserves_positions _ _ _ _ hca k
        have hposx : (reg3.getD k defaultCharacter).posX =
            (moveCloserToHuman m (reg.getD k defaultCharacter)).2.posX := by
          rw [hpos.1, hset]
        have hposy : (reg3.getD k defaultCharacter).posY =
            (moveCloserToHuman m (reg.getD k defaultCharacter)).2.posY := by
          rw [hpos.2, hset]
        obtain ⟨hsafe1, hsafe2⟩ := moveCloser_safe m (reg.getD k defaultCharacter) hin
        refine ⟨(moveCloser_dims m _).1, (moveCloser_dims m _).2, ?_, ?_⟩
        · rw [hposx, hposy]; exact hsafe1
        · intro hne
          rw [hposx, hposy]
          exact hsafe2 (by rw [hposx, hposy] at hne; exact hne)
  · rw [if_neg hp] at hexec
    simp only [Option.some.injEq, Prod.mk.injEq] at hexec
    obtain ⟨hm2, hreg2⟩ := hexec
    subst hm2
    subst hreg2
    exact ⟨rfl, rfl, hin, fun hne => absurd rfl hne⟩

/-- Witness for C7: the character at `(2, 6)` of `mC2` steps to the in-bounds
empty cell `(2, 5)`, both through `moveCloserToHuman` directly and through a
full `execute` call. -/
theorem execute_in_bounds_and_empty_dest_witness :
    (InBoundsPos mC2 (moveCloserToHuman mC2 cC2).2.posX
        (moveCloserToHuman mC2 cC2).2.posY ∧
      (((moveCloserToHuman mC2 cC2).2.posX, (moveCloserToHuman mC2 cC2).2.posY) ≠
          (cC2.posX, cC2.posY) →
        getCell mC2 (moveCloserToHuman mC2 cC2).2.posX
          (moveCloserToHuman mC2 cC2).2.posY = ' ')) ∧
    ((moveCloserToHuman mC2 cC2).1.mapWidth = mC2.mapWidth ∧
      (moveCloserToHuman mC2 cC2).1.mapLength = mC2.mapLength ∧
      InBoundsPos mC2
        ([(moveCloserToHuman mC2 cC2).2].getD 0 defaultCharacter).posX
        ([(moveCloserToHuman mC2 cC2).2].getD 0 defaultCharacter).posY ∧
      ((([(moveCloserToHuman mC2 cC2).2].getD 0 defaultCharacter).posX,
          ([(moveCloserToHuman mC2 cC2).2].getD 0 defaultCharacter).posY) ≠
          (([cC2].getD 0 defaultCharacter).posX,
            ([cC2].getD 0 defaultCharacter).posY) →
        getCell mC2
          ([(moveCloserToHuman mC2 cC2).2].getD 0 defaultCharacter).posX
          ([(moveCloserToHuman mC2 cC2).2].getD 0 defaultCharacter).posY = ' ')) :=
  ⟨execute_in_bounds_and_empty_dest.1 mC2 cC2 (by decide),
    execute_in_bounds_and_empty_dest.2 mC2 [cC2] 0 (moveCloserToHuman mC2 cC2).1
      [(moveCloserToHuman mC2 cC2).2] (by decide) (by decide) rfl⟩

lemma getCell_setCell (m : Map) (x y : Int) (s : Char) (a b : Int) :
    getCell (setCell m x y s) a b = if a = x ∧ b = y then s else getCell m a b := rfl

lemma getD_mem (reg : List Character) (j : Nat) (hj : j < reg.length) :
    reg.getD j defaultCharacter ∈ reg := by
  rw [List.getD_eq_getElem reg defaultCharacter hj]
  exact List.getElem_mem hj

/-- Moving the registry character `k` onto a previously empty cell, by the
clear-then-write scheme all four movement primitives use, preserves the state
invariant. -/
lemma moved_preserves_inv (m : Map) (reg : List Character) (k : Nat)
    (hk : k < reg.length) (hinv : StateInv m reg)
    (hblank : ∀ ch ∈ reg, ch.typeOnMap ≠ ' ') (nx ny : Int)
    (hne : ¬(nx = (reg.getD k defaultCharacter).posX ∧
      ny = (reg.getD k defaultCharacter).posY))
    (hempty : getCell m nx ny = ' ') :
    StateInv
      (setCell (clearCell m (reg.getD k defaultCharacter).posX
        (reg.getD k defaultCharacter).posY) nx ny
        (reg.getD k defaultCharacter).typeOnMap)
      (reg.set k { reg.getD k defaultCharacter with posX := nx, posY := ny }) := by
  have hnoch : ∀ j, j < reg.length →
      ¬((reg.getD j defaultCharacter).posX = nx ∧
        (reg.getD j defaultCharacter).posY = ny) := by
    intro j hj hmat
    have hmem := getD_mem reg j hj
    have hcell := hinv.2 _ hmem
    rw [hmat.1, hmat.2] at hcell
    exact hblank _ hmem (hcell.symm.trans hempty)
  constructor
  · intro a ha b hb hab
    have ha2 : a < reg.length := by simpa using ha
    have hb2 : b < reg.length := by simpa using hb
    by_cases hak : a = k
    · subst hak
      rw [set_getD_self reg a _ defaultCharacter ha2,
        set_getD_ne reg a b _ defaultCharacter hab]
      intro hcontra
      exact hnoch b hb2 ⟨(congrArg Prod.fst hcontra).symm, (congrArg Prod.snd hcontra).symm⟩
    · by_cases hbk : b = k
      · subst hbk
        rw [set_getD_ne reg b a _ defaultCharacter (fun h => hak h.symm),
          set_getD_self reg b _ defaultCharacter hb2]
        intro hcontra
        exact hnoch a ha2 ⟨congrArg Prod.fst hcontra, congrArg Prod.snd hcontra⟩
      · rw [set_getD_ne reg k a _ defaultCharacter (fun h => hak h.symm),
          set_getD_ne reg k b _ defaultCharacter (fun h => hbk h.symm)]
        exact hinv.1 a ha2 b hb2 hab
  · intro ch hch
    obtain ⟨ix, hix, hEq⟩ := List.mem_iff_getElem.mp hch
    have hix2 : ix < reg.length := by simpa using hix
    have hgetD : (reg.set k { reg.getD k defaultCharacter with
        posX := nx, posY := ny }).getD ix defaultCharacter = ch := by
      rw [List.getD_eq_getElem _ _ hix]
      exact hEq
    by_cases hixk : ix = k
    · subst hixk
      rw [set_getD_self reg ix _ defaultCharacter hix2] at hgetD
      rw [← hgetD]
      rw [getCell_setCell]
      rw [if_pos ⟨rfl, rfl⟩]
    · rw [set_getD_ne reg k ix _ defaultCharacter (fun h => hixk h.symm)] at hgetD
      rw [← hgetD]
      rw [getCell_setCell]
      rw [if_neg (hnoch ix hix2)]
      rw [clearCell, getCell_setCell]
      have hdistinct := hinv.1 ix hix2 k hk hixk
      rw [if_neg (fun hmat => hdistinct (by rw [hmat.1, hmat.2]))]
      exact hinv.2 _ (getD_mem reg ix hix2)

/-- An attack whose target's symbol is not the friendly mark changes only the
target's hit points, so the position/symbol bookkeeping survives. -/
lemma attack_nonC_preserves_inv (m : Map) (reg : List Character) (x y : Int)
    (i : Nat) (h : lastMatch reg x y = some i)
    (hnc : (reg.getD i defaultCharacter).typeOnMap ≠ 'C')
    (hinv : StateInv m reg) :
    attackCharacterAtPosition reg x y =
      some (reg.set i (attackedUpdate (reg.getD i defaultCharacter))) ∧
    StateInv m (reg.set i (attackedUpdate (reg.getD i defaultCharacter))) := by
  have hi : i < reg.length := (lastMatch_spec reg x y i h).1
  refine ⟨attack_eq_of_lastMatch reg x y i h, ?_, ?_⟩
  · intro a ha b hb hab
    have ha2 : a < reg.length := by simpa using ha
    have hb2 : b < reg.length := by simpa using hb
    by_cases hak : a = i
    · subst hak
      rw [set_getD_self reg a _ defaultCharacter ha2,
        set_getD_ne reg a b _ defaultCharacter hab,
        attackedUpdate_posX, attackedUpdate_posY]
      exact hinv.1 a ha2 b hb2 hab
    · by_cases hbk : b = i
      · subst hbk
        rw [set_getD_ne reg b a _ defaultCharacter (fun h2 => hak h2.symm),
          set_getD_self reg b _ defaultCharacter hb2,
          attackedUpdate_posX, attackedUpdate_posY]
        exact hinv.1 a ha2 b hb2 hab
      · rw [set_getD_ne reg i a _ defaultCharacter (fun h2 => hak h2.symm),
          set_getD_ne reg i b _ defaultCharacter (fun h2 => hbk h2.symm)]
        exact hinv.1 a ha2 b hb2 hab
  · intro ch hch
    obtain ⟨ix, hix, hEq⟩ := List.mem_iff_getElem.mp hch
    have hix2 : ix < reg.length := by simpa using hix
    have hgetD : (reg.set i (attackedUpdate (reg.getD i defaultCharacter))).getD ix
        defaultCharacter = ch := by
      rw [List.getD_eq_getElem _ _ hix]
      exact hEq
    by_cases hixk : ix = i
    · subst hixk
      rw [set_getD_self reg ix _ defaultCharacter hix2] at hgetD
      rw [← hgetD, attackedUpdate_posX, attackedUpdate_posY,
        attackedUpdate_typeOnMap, if_neg hnc]
      exact hinv.2 _ (getD_mem reg ix hix2)
    · rw [set_getD_ne reg i ix _ defaultCharacter (fun h2 => hixk h2.symm)] at hgetD
      rw [← hgetD]
      exact hinv.2 _ (getD_mem reg ix hix2)

/-- C8 (counterexample): with a friendly character at `(1, 1)` whose symbol
`'C'` is on the grid, the state invariant holds, yet after the attack the
character's symbol is `'O'` while the grid still shows `'C'` — the attack
mutation does not preserve the position/symbol synchronisation. -/
theorem attack_breaks_symbol_sync :
    StateInv mC8 [wCharC] ∧
    attackCharacterAtPosition [wCharC] 1 1 = some [wCharCAfter] ∧
    ¬StateInv mC8 [wCharCAfter] := by decide

/-- C8 (amended): the four movement primitives, as invoked by the strategy
(registry character, previously validated empty destination, character
symbols nonblank), preserve the invariant that at most one character occupies
a cell and recorded positions match grid symbols; `attackCharacterAtPosition`
preserves it whenever the target's symbol is not `'C'` — but not in the
`'C'`-conversion case, which rewrites the character's symbol without touching
the grid (see the counterexample). -/
theorem mutations_preserve_inv_amended :
    (∀ (m : Map) (reg : List Character) (k : Nat), k < reg.length →
      StateInv m reg → (∀ ch ∈ reg, ch.typeOnMap ≠ ' ') →
      (getCell m ((reg.getD k defaultCharacter).posX - 1)
          (reg.getD k defaultCharacter).posY = ' ' →
        StateInv (moveUp m (reg.getD k defaultCharacter)).1
          (reg.set k (moveUp m (reg.getD k defaultCharacter)).2)) ∧
      (getCell m ((reg.getD k defaultCharacter).posX + 1)
          (reg.getD k defaultCharacter).posY = ' ' →
        StateInv (moveDown m (reg.getD k defaultCharacter)).1
          (reg.set k (moveDown m (reg.getD k defaultCharacter)).2)) ∧
      (getCell m (reg.getD k defaultCharacter).posX
          ((reg.getD k defaultCharacter).posY - 1) = ' ' →
        StateInv (moveLeft m (reg.getD k defaultCharacter)).1
          (reg.set k (moveLeft m (reg.getD k defaultCharacter)).2)) ∧
      (getCell m (reg.getD k defaultCharacter).posX
          ((reg.getD k defaultCharacter).posY + 1) = ' ' →
        StateInv (moveRight m (reg.getD k defaultCharacter)).1
          (reg.set k (moveRight m (reg.getD k defaultCharacter)).2))) ∧
    (∀ (m : Map) (reg : List Character) (x y : Int) (i : Nat),
      lastMatch reg x y = some i →
      (reg.getD i defaultCharacter).typeOnMap ≠ 'C' → StateInv m reg →
      ∃ reg2, attackCharacterAtPosition reg x y = some reg2 ∧
        StateInv m reg2) := by
  constructor
  · intro m reg k hk hinv hblank
    refine ⟨?_, ?_, ?_, ?_⟩
    · intro hempty
      exact moved_preserves_inv m reg k hk hinv hblank
        ((reg.getD k defaultCharacter).posX - 1)
        (reg.getD k defaultCharacter).posY
        (by rintro ⟨h1, h2⟩; omega) hempty
    · intro hempty
      exact moved_preserves_inv m reg k hk hinv hblank
        ((reg.getD k defaultCharacter).posX + 1)
        (reg.getD k defaultCharacter).posY
        (by rintro ⟨h1, h2⟩; omega) hempty
    · intro hempty
      exact moved_preserves_inv m reg k hk hinv hblank
        (reg.getD k defaultCharacter).posX
        ((reg.getD k defaultCharacter).posY - 1)
        (by rintro ⟨h1, h2⟩; omega) hempty
    · intro hempty
      exact moved_preserves_inv m reg k hk hinv hblank
        (reg.getD k defaultCharacter).posX
        ((reg.getD k defaultCharacter).posY + 1)
        (by rintro ⟨h1, h2⟩; omega) hempty
  · intro m reg x y i h hnc hinv
    obtain ⟨heq, hpres⟩ := attack_nonC_preserves_inv m reg x y i h hnc hinv
    exact ⟨_, heq, hpres⟩

/-- Witness for C8 (amended): moving the `'S'` character of `wMap` up to the
empty cell `(0, 1)` keeps the invariant, and attacking it (a non-`'C'`
target) keeps the invariant too. -/
theorem mutations_preserve_inv_amended_witness :
    StateInv (moveUp wMap ([wChar].getD 0 defaultCharacter)).1
      ([wChar].set 0 (moveUp wMap ([wChar].getD 0 defaultCharacter)).2) ∧
    ∃ reg2, attackCharacterAtPosition [wChar] 1 1 = some reg2 ∧
      StateInv wMap reg2 :=
  ⟨(mutations_preserve_inv_amended.1 wMap [wChar] 0 (by decide) (by decide)
      (by decide)).1 (by decide),
    mutations_preserve_inv_amended.2 wMap [wChar] 1 1 0 (by decide) (by decide)
      (by decide)⟩
